import Mathlib

set_option maxHeartbeats 1000000

/-!
Verification of the percona-agent telemetry pipeline core: the per-metric
Stats accumulator (mm package), the Aggregator run loop, the data Sender's
spool-drain cycle, and the MySQL Connection.Connect retry loop.

Go float64 values are modelled as rationals, Go int64 timestamps as Int,
and Go byte counts and Go int counters as Nat.  A Go function that can
panic is modelled with an Option result where none stands for the panic.
-/

/-- Modelled from the spec: the mm package's Metric record
`{Name: string, Type: enum{gauge, counter}, Number: float64}`
(its Go source file is not part of the provided sources). -/
structure Metric where
  name : String
  type : String
  number : ℚ
  deriving Repr, DecidableEq

/-- Modelled from the spec: the mm package's `MetricTypes` set of recognized
metric types, which per the spec's data model is exactly gauge and counter
(its Go source file is not part of the provided sources). -/
def MetricTypes (t : String) : Bool :=
  t = "gauge" || t = "counter"

/-- The data carried by the counter "Value lap" error built in `Stats.Add`
(the Go code formats exactly these six values into the error string). -/
structure LapError where
  penuTs : Int
  prevTs : Int
  ts : Int
  penuVal : ℚ
  prevVal : ℚ
  val : ℚ
  deriving Repr, DecidableEq

/-- The mm package's `Stats` struct: working state plus the finalized
summary fields. -/
structure Stats where
  metricType : String
  str : String
  firstVal : Bool
  prevTs : Int
  penuTs : Int
  prevVal : ℚ
  penuVal : ℚ
  vals : List ℚ
  sum : ℚ
  Cnt : Nat
  Min : ℚ
  Pct5 : ℚ
  Avg : ℚ
  Med : ℚ
  Pct95 : ℚ
  Max : ℚ
  deriving Repr, DecidableEq

/-- A fresh `Stats` as built by `NewStats`: the given metric type, an empty
value list, `firstVal` true, and Go zero values everywhere else. -/
def freshStats (metricType : String) : Stats :=
  { metricType := metricType, str := "", firstVal := true, prevTs := 0, penuTs := 0,
    prevVal := 0, penuVal := 0, vals := [], sum := 0,
    Cnt := 0, Min := 0, Pct5 := 0, Avg := 0, Med := 0, Pct95 := 0, Max := 0 }

/-- `NewStats` from mm: rejects unrecognized metric types, otherwise returns
a fresh accumulator. -/
def NewStats (metricType : String) : Except String Stats :=
  if MetricTypes metricType then
    Except.ok (freshStats metricType)
  else
    Except.error ("Invalid metric type: " ++ metricType)

/-- `Stats.Add` from mm.  Returns `none` for the `log.Panic` in the default
branch of the type switch; otherwise `some` of the updated accumulator and
the (possibly nil) lap error. -/
def Stats.Add (s : Stats) (m : Metric) (ts : Int) : Option (Stats × Option LapError) :=
  if s.metricType = "gauge" then
    some ({ s with vals := s.vals ++ [m.number], sum := s.sum + m.number }, none)
  else if s.metricType = "counter" then
    if s.firstVal = false then
      if s.prevVal ≤ m.number then
        let err : Option LapError :=
          if 0 < s.penuVal ∧ s.prevVal = 0 ∧ s.penuVal < m.number then
            some ⟨s.penuTs, s.prevTs, ts, s.penuVal, s.prevVal, m.number⟩
          else
            none
        let inc := m.number - s.prevVal
        let dur := ts - s.prevTs
        let val := inc / (dur : ℚ)
        some ({ s with
                vals := s.vals ++ [val], sum := s.sum + val,
                penuTs := s.prevTs, prevTs := ts,
                penuVal := s.prevVal, prevVal := m.number }, err)
      else
        some ({ s with
                penuTs := s.prevTs, prevTs := ts,
                penuVal := s.prevVal, prevVal := m.number }, none)
    else
      some ({ s with
              penuTs := s.prevTs, prevTs := ts,
              penuVal := s.prevVal, prevVal := m.number, firstVal := false }, none)
  else
    none

/-- The ascending sort used to model Go's `sort.Float64s`. -/
def sortVals (l : List ℚ) : List ℚ :=
  List.insertionSort (fun a b => a ≤ b) l

/-- `Stats.Summarize` from mm: for a recognized metric type, sets `Cnt` to
the number of accumulated values and, when values exist, sorts them in
place and fills the six summary fields by the percentile-index rule. -/
def Stats.Summarize (s : Stats) : Stats :=
  if s.metricType = "gauge" ∨ s.metricType = "counter" then
    let cnt := s.vals.length
    if 1 < cnt then
      let sorted := sortVals s.vals
      { s with
        vals := sorted, Cnt := cnt,
        Min := sorted.getD 0 0,
        Pct5 := sorted.getD ((5 * cnt) / 100) 0,
        Avg := s.sum / (cnt : ℚ),
        Med := sorted.getD ((50 * cnt) / 100) 0,
        Pct95 := sorted.getD ((95 * cnt) / 100) 0,
        Max := sorted.getD (cnt - 1) 0 }
    else if cnt = 1 then
      { s with
        Cnt := cnt,
        Min := s.vals.getD 0 0, Pct5 := s.vals.getD 0 0, Avg := s.vals.getD 0 0,
        Med := s.vals.getD 0 0, Pct95 := s.vals.getD 0 0, Max := s.vals.getD 0 0 }
    else
      { s with Cnt := cnt }
  else
    s

/-- `Stats.Finalize` from mm: nil when no values were accumulated, otherwise
a copy holding only the summarized fields, all working state zeroed. -/
def Stats.Finalize (s : Stats) : Option Stats :=
  if s.vals.length = 0 then
    none
  else
    let s2 := s.Summarize
    some { metricType := "", str := "", firstVal := false, prevTs := 0, penuTs := 0,
           prevVal := 0, penuVal := 0, vals := [], sum := 0,
           Cnt := s2.Cnt, Min := s2.Min, Pct5 := s2.Pct5, Avg := s2.Avg,
           Med := s2.Med, Pct95 := s2.Pct95, Max := s2.Max }

/-- Feed a sequence of (timestamp, value) samples to a `Stats` via `Add`,
collecting the per-call errors; `none` if any call panics. -/
def addSeqE (s : Stats) : List (Int × ℚ) → Option (Stats × List (Option LapError))
  | [] => some (s, [])
  | (ts, v) :: rest =>
    (s.Add ⟨"", "", v⟩ ts).bind (fun p =>
      (addSeqE p.1 rest).map (fun q => (q.1, p.2 :: q.2)))

/-- The per-step counter rates of a sample sequence: for each adjacent pair,
the value increase divided by the timestamp distance. -/
def consecRates : List (Int × ℚ) → List ℚ
  | [] => []
  | [_] => []
  | (t1, v1) :: (t2, v2) :: rest =>
    ((v2 - v1) / (((t2 - t1 : Int)) : ℚ)) :: consecRates ((t2, v2) :: rest)

/-- Modelled from the spec: a Collection is a batch of Metrics plus the
monitor's `StartTs` (its Go source file is not part of the provided
sources). -/
structure Collection where
  startTs : Int
  metrics : List Metric
  deriving Repr, DecidableEq

/-- The Aggregator's `cur` window and a Report's `Metrics` field: a mapping
from metric name to its `Stats`, modelled as an association list. -/
abbrev MetricsMap := List (String × Stats)

/-- Lookup in a `MetricsMap` (Go map read `cur[name]`). -/
def lookupStats : MetricsMap → String → Option Stats
  | [], _ => none
  | (n, s) :: rest, name => if n = name then some s else lookupStats rest name

/-- Update or insert in a `MetricsMap` (Go map write `cur[name] = stats`). -/
def updateStats : MetricsMap → String → Stats → MetricsMap
  | [], name, s => [(name, s)]
  | (n, s0) :: rest, name, s =>
    if n = name then (n, s) :: rest else (n, s0) :: updateStats rest name s

/-- One metric of a Collection handled by the Aggregator's run loop: look up
or lazily create the metric's `Stats` and call `Add`; `none` if `Add`
panics (or `NewStats` rejects the type, in which case `Add` on the nil
stats would equally crash the goroutine). -/
def addMetricToWindow (cur : MetricsMap) (ts : Int) (m : Metric) : Option MetricsMap :=
  let s0 : Option Stats :=
    match lookupStats cur m.name with
    | some s => some s
    | none => (NewStats m.type).toOption
  match s0 with
  | none => none
  | some s =>
    match s.Add m ts with
    | none => none
    | some (s2, _err) => some (updateStats cur m.name s2)

/-- All metrics of a Collection handled in order by the run loop. -/
def addMetricsToWindow (cur : MetricsMap) (ts : Int) : List Metric → Option MetricsMap
  | [] => some cur
  | m :: rest =>
    match addMetricToWindow cur ts m with
    | none => none
    | some cur2 => addMetricsToWindow cur2 ts rest

/-- A Report as built by `Aggregator.report`: the window's start timestamp
and the window's metrics after `Summarize`. -/
structure Report where
  Ts : Int
  Metrics : MetricsMap
  deriving Repr, DecidableEq

/-- `Aggregator.report`'s treatment of the window before emitting it:
`Summarize` every `Stats` (the whole map goes into the Report). -/
def summarizeAll (ms : MetricsMap) : MetricsMap :=
  ms.map (fun p => (p.1, p.2.Summarize))

/-- The events consumed by the Aggregator's run loop select statement:
a ticker tick (the Go zero `time.Time` never being a tick value), an
incoming Collection, or the stop signal. -/
inductive AggEvent where
  | tick (now : Int)
  | coll (c : Collection)
  | stop
  deriving Repr, DecidableEq

/-- The run loop's local state: `startTs` (`none` models the Go zero
`time.Time`, i.e. no window open yet) and the current window `cur`. -/
structure AggState where
  startTs : Option Int
  cur : MetricsMap
  deriving Repr, DecidableEq

/-- The Aggregator's run loop over a queue of events, accumulating the
Reports written to the Spooler; `none` if an `Add` panic crashes the
loop. -/
def Aggregator.runAux : AggState → List Report → List AggEvent → Option (List Report)
  | _, reps, [] => some reps
  | st, reps, AggEvent.tick now :: rest =>
    match st.startTs with
    | some t => Aggregator.runAux ⟨some now, []⟩ (reps ++ [⟨t, summarizeAll st.cur⟩]) rest
    | none => Aggregator.runAux ⟨some now, []⟩ reps rest
  | st, reps, AggEvent.coll c :: rest =>
    match addMetricsToWindow st.cur c.startTs c.metrics with
    | none => none
    | some cur2 => Aggregator.runAux ⟨st.startTs, cur2⟩ reps rest
  | _, reps, AggEvent.stop :: _ => some reps

/-- The Reports the Aggregator emits while consuming the given events from
its initial state (no window open, empty current window). -/
def Aggregator.run (evs : List AggEvent) : Option (List Report) :=
  Aggregator.runAux ⟨none, []⟩ [] evs

/-- Total variant of `addMetricToWindow` used by the spec-level window
description; it agrees with `addMetricToWindow` whenever no panic occurs. -/
def addMetricTotal (cur : MetricsMap) (ts : Int) (m : Metric) : MetricsMap :=
  match addMetricToWindow cur ts m with
  | some cur2 => cur2
  | none => cur

/-- Total variant of `addMetricsToWindow` for the spec-level window
description. -/
def addMetricsTotal (cur : MetricsMap) (ts : Int) (ms : List Metric) : MetricsMap :=
  ms.foldl (fun c m => addMetricTotal c ts m) cur

/-- Modelled from the spec: with a window open since tick `t`, each further
tick emits exactly one Report timestamped at the previous tick and holding
exactly the metrics of the Collections received since that tick; a stop
signal flushes nothing. -/
def specFrom (t : Int) (cur : MetricsMap) : List AggEvent → List Report
  | [] => []
  | AggEvent.tick t2 :: rest => ⟨t, summarizeAll cur⟩ :: specFrom t2 [] rest
  | AggEvent.coll c :: rest => specFrom t (addMetricsTotal cur c.startTs c.metrics) rest
  | AggEvent.stop :: _ => []

/-- Modelled from the spec: the Reports of the tick-delimited windows of an
event sequence; Collections before the first tick are discarded and never
reported. -/
def specWindows : List AggEvent → List Report
  | [] => []
  | AggEvent.tick t :: rest => specFrom t [] rest
  | AggEvent.coll _ :: rest => specWindows rest
  | AggEvent.stop :: _ => []

/-- A metric whose declared type the mm package recognizes. -/
def ValidMetric (m : Metric) : Prop :=
  m.type = "gauge" ∨ m.type = "counter"

/-- An event stream whose Collections carry only recognized metric types. -/
def ValidEvent : AggEvent → Prop
  | AggEvent.coll c => ∀ m ∈ c.metrics, ValidMetric m
  | _ => True

/-- Validity of every event of a stream. -/
def ValidEvents (evs : List AggEvent) : Prop :=
  ∀ e ∈ evs, ValidEvent e

/-- A window whose accumulated `Stats` all carry recognized metric types. -/
def ValidWindow (cur : MetricsMap) : Prop :=
  ∀ p ∈ cur, p.2.metricType = "gauge" ∨ p.2.metricType = "counter"

/-- A pending spool unit as the Sender's cycle sees it: its name, its bytes,
and the numeric code with which the API acknowledges its transmission. -/
structure SpoolFile where
  name : String
  data : List Nat
  code : Int
  deriving Repr, DecidableEq

/-- The Sender's per-cycle counters touched by `sendAllFiles`. -/
structure SenderCounts where
  sent : Nat
  bad : Nat
  sentBytes : Nat
  apiErr : Bool
  deriving Repr, DecidableEq

/-- The two ways `sendAllFiles` returns: a nil error (success or a 5xx API
error) or a non-nil error (transport/protocol failure). -/
inductive SendOutcome where
  | done
  | failed (msg : String)
  deriving Repr, DecidableEq

/-- `Sender.sendAllFiles` over the Spooler's enumeration of pending units,
with transport sends and acks always succeeding and the timeout budget
never exceeded (real time is outside the model).  Returns the updated
counters, the names removed from the spool (in order), and the outcome. -/
def sendAllFiles (blackhole : Bool) (st : SenderCounts) :
    List SpoolFile → SenderCounts × List String × SendOutcome
  | [] => (st, [], SendOutcome.done)
  | f :: rest =>
    if blackhole then
      let out := sendAllFiles blackhole st rest
      (out.1, f.name :: out.2.1, out.2.2)
    else if f.data.length = 0 then
      let out := sendAllFiles blackhole st rest
      (out.1, f.name :: out.2.1, out.2.2)
    else
      let st1 := { st with sentBytes := st.sentBytes + f.data.length }
      if 500 ≤ f.code then
        ({ st1 with apiErr := true }, [], SendOutcome.done)
      else if 400 ≤ f.code then
        let out := sendAllFiles blackhole { st1 with sent := st1.sent + 1, bad := st1.bad + 1 } rest
        (out.1, f.name :: out.2.1, out.2.2)
      else if 300 ≤ f.code then
        (st1, [], SendOutcome.failed ("Recieved unhandled response code from API: " ++ toString f.code))
      else if 200 ≤ f.code then
        let out := sendAllFiles blackhole { st1 with sent := st1.sent + 1 } rest
        (out.1, f.name :: out.2.1, out.2.2)
      else
        (st1, [], SendOutcome.failed ("Recieved unknown response code from API: " ++ toString f.code))

/-- Modelled from the spec: the pct Backoff primitive — `wait` starts at a
small baseline, doubles on repeated calls without an intervening `success`,
capped at the configured maximum; `success` resets to baseline (its Go
source file is not part of the provided sources).  Durations are abstract
Nat units. -/
structure Backoff where
  lastWait : Nat
  maxWait : Nat
  deriving Repr, DecidableEq

/-- Backoff `Wait()`: the duration to sleep before the next attempt, plus
the advanced backoff state. -/
def Backoff.wait (b : Backoff) : Nat × Backoff :=
  let d := if b.lastWait = 0 then 1 else min (2 * b.lastWait) b.maxWait
  (d, { b with lastWait := d })

/-- Backoff `Success()`: reset so the next failure starts from baseline. -/
def Backoff.success (b : Backoff) : Backoff :=
  { b with lastWait := 0 }

/-- The outcome the environment provides for one connection attempt:
`sql.Open` fails, open succeeds but the `Ping` liveness probe fails
(yielding a partially-open handle), or both succeed. -/
inductive Attempt where
  | openFail (e : String)
  | pingFail (h : Nat) (e : String)
  | ok (h : Nat)
  deriving Repr, DecidableEq

/-- Whether an attempt outcome is a failure. -/
def Attempt.failed : Attempt → Bool
  | Attempt.openFail _ => true
  | Attempt.pingFail _ _ => true
  | Attempt.ok _ => false

/-- The error a failed attempt produces. -/
def Attempt.err : Attempt → Option String
  | Attempt.openFail e => some e
  | Attempt.pingFail _ e => some e
  | Attempt.ok _ => none

/-- The Connection state `Connect` manipulates: the recorded live handle and
the backoff. -/
structure ConnState where
  conn : Option Nat
  backoff : Backoff
  deriving Repr, DecidableEq

/-- Everything observable about one `Connect` call: the final connection
state, the sleeps performed (one before each attempt), the handles closed
after failed liveness probes, and the returned error (`none` is Go `nil`). -/
structure ConnectOut where
  state : ConnState
  sleeps : List Nat
  closed : List Nat
  errResult : Option String
  deriving Repr, DecidableEq

/-- The descriptive error `Connect` returns after exhausting its attempts. -/
def connectFailMsg (tries : Nat) (lastErr : Option String) : String :=
  "Failed to connect to MySQL after " ++ toString tries ++ " tries (" ++
    (match lastErr with
     | some e => e
     | none => "") ++ ")"

/-- The `for i := tries; i > 0; i--` loop of `Connection.Connect`: sleep per
Backoff, attempt to open, probe liveness; on success record the handle and
call Backoff `Success()`; on a failed probe close the handle; carry the
last error into the final failure message. -/
def Connection.connectAux (outcomes : Nat → Attempt) (tries0 : Nat) :
    Nat → Nat → ConnState → List Nat → List Nat → Option String → ConnectOut
  | 0, _, st, sleeps, closed, lastErr =>
    ⟨st, sleeps, closed, some (connectFailMsg tries0 lastErr)⟩
  | i + 1, k, st, sleeps, closed, lastErr =>
    let w := st.backoff.wait
    let sleeps2 := sleeps ++ [w.1]
    match outcomes k with
    | Attempt.openFail e =>
      Connection.connectAux outcomes tries0 i (k + 1) ⟨st.conn, w.2⟩ sleeps2 closed (some e)
    | Attempt.pingFail h e =>
      Connection.connectAux outcomes tries0 i (k + 1) ⟨st.conn, w.2⟩ sleeps2 (closed ++ [h]) (some e)
    | Attempt.ok h =>
      ⟨⟨some h, w.2.success⟩, sleeps2, closed, none⟩

/-- `Connection.Connect(tries)`: an immediate no-op success when `tries` is
zero, otherwise the bounded retry loop. -/
def Connection.Connect (outcomes : Nat → Attempt) (st : ConnState) (tries : Nat) : ConnectOut :=
  if tries = 0 then
    ⟨st, [], [], none⟩
  else
    Connection.connectAux outcomes tries tries 0 st [] [] none

/-- The successive waits of `n` Backoff `wait` calls from state `b`. -/
def backoffSeq (b : Backoff) : Nat → List Nat
  | 0 => []
  | n + 1 => (b.wait).1 :: backoffSeq (b.wait).2 n

/-- The backoff state after `n` `wait` calls from state `b`. -/
def backoffIter (b : Backoff) : Nat → Backoff
  | 0 => b
  | n + 1 => backoffIter (b.wait).2 n

/-- The handles closed across attempts `k, k+1, ..., k+n-1`: exactly those
of failed liveness probes. -/
def closedOfFrom (outcomes : Nat → Attempt) (k : Nat) : Nat → List Nat
  | 0 => []
  | n + 1 =>
    (match outcomes k with
     | Attempt.pingFail h _ => [h]
     | _ => []) ++ closedOfFrom outcomes (k + 1) n

/-! ### Helper lemmas about `Stats` -/

/-- `Add` on a gauge appends the raw value. -/
theorem add_gauge_eq (s : Stats) (m : Metric) (ts : Int) (h : s.metricType = "gauge") :
    s.Add m ts = some ({ s with vals := s.vals ++ [m.number], sum := s.sum + m.number }, none) := by
  unfold Stats.Add
  rw [if_pos h]

/-- `Add` on a counter's very first sample only records the baseline. -/
theorem add_counter_first (s : Stats) (m : Metric) (ts : Int)
    (h : s.metricType = "counter") (hf : s.firstVal = true) :
    s.Add m ts = some ({ s with
      penuTs := s.prevTs, prevTs := ts,
      penuVal := s.prevVal, prevVal := m.number, firstVal := false }, none) := by
  unfold Stats.Add
  rw [if_neg (by rw [h]; decide), if_pos h, if_neg (by rw [hf]; decide)]

/-- `Add` on a counter when the value did not decrease: append the rate,
advance the pointers, and raise the lap error exactly under the code's
triple condition. -/
theorem add_counter_incr (s : Stats) (m : Metric) (ts : Int)
    (h : s.metricType = "counter") (hf : s.firstVal = false) (hle : s.prevVal ≤ m.number) :
    s.Add m ts = some ({ s with
      vals := s.vals ++ [(m.number - s.prevVal) / ((ts - s.prevTs : Int) : ℚ)],
      sum := s.sum + (m.number - s.prevVal) / ((ts - s.prevTs : Int) : ℚ),
      penuTs := s.prevTs, prevTs := ts,
      penuVal := s.prevVal, prevVal := m.number },
      if 0 < s.penuVal ∧ s.prevVal = 0 ∧ s.penuVal < m.number then
        some ⟨s.penuTs, s.prevTs, ts, s.penuVal, s.prevVal, m.number⟩
      else none) := by
  unfold Stats.Add
  rw [if_neg (by rw [h]; decide), if_pos h, if_pos hf, if_pos hle]

/-- `Add` on a counter when the value decreased (a reset): no sample, no
error, pointers advance. -/
theorem add_counter_reset (s : Stats) (m : Metric) (ts : Int)
    (h : s.metricType = "counter") (hf : s.firstVal = false) (hlt : m.number < s.prevVal) :
    s.Add m ts = some ({ s with
      penuTs := s.prevTs, prevTs := ts,
      penuVal := s.prevVal, prevVal := m.number }, none) := by
  unfold Stats.Add
  rw [if_neg (by rw [h]; decide), if_pos h, if_pos hf, if_neg (not_le.mpr hlt)]

/-- For a recognized metric type, `Summarize` always sets `Cnt` to the
number of accumulated values. -/
theorem summarize_cnt (s : Stats) (h : s.metricType = "gauge" ∨ s.metricType = "counter") :
    (s.Summarize).Cnt = s.vals.length := by
  unfold Stats.Summarize
  rw [if_pos h]
  by_cases h1 : 1 < s.vals.length
  · rw [if_pos h1]
  · rw [if_neg h1]
    by_cases h2 : s.vals.length = 1
    · rw [if_pos h2, h2]
    · rw [if_neg h2]

/-- Unfolding equation for `addSeqE` on a cons. -/
theorem addSeqE_cons (s : Stats) (ts : Int) (v : ℚ) (rest : List (Int × ℚ)) :
    addSeqE s ((ts, v) :: rest) =
      (s.Add ⟨"", "", v⟩ ts).bind (fun p =>
        (addSeqE p.1 rest).map (fun q => (q.1, p.2 :: q.2))) := by
  rfl

/-- Appending sample sequences composes `addSeqE`. -/
theorem addSeqE_append (xs : List (Int × ℚ)) :
    ∀ (ys : List (Int × ℚ)) (s s2 : Stats) (es : List (Option LapError)),
    addSeqE s xs = some (s2, es) →
    addSeqE s (xs ++ ys) = (addSeqE s2 ys).map (fun q => (q.1, es ++ q.2)) := by
  induction xs with
  | nil =>
    intro ys s s2 es h
    unfold addSeqE at h
    injection h with h
    injection h with h1 h2
    subst h1; subst h2
    simp only [List.nil_append]
    cases hy : addSeqE s ys with
    | none => simp [hy]
    | some q => simp [hy]
  | cons p rest ih =>
    intro ys s s2 es h
    obtain ⟨ts, v⟩ := p
    rw [List.cons_append]
    rw [addSeqE_cons] at h ⊢
    cases ha : s.Add ⟨"", "", v⟩ ts with
    | none => rw [ha] at h; exact absurd h (by simp)
    | some q =>
      obtain ⟨sa, e⟩ := q
      rw [ha] at h
      simp only [Option.some_bind] at h ⊢
      cases hrest : addSeqE sa rest with
      | none => rw [hrest] at h; exact absurd h (by simp)
      | some q2 =>
        rw [hrest] at h
        obtain ⟨s3, es3⟩ := q2
        simp only [Option.some_bind, Option.map_some', Option.some.injEq, Prod.mk.injEq] at h
        obtain ⟨h1, h2⟩ := h
        subst h1; subst h2
        rw [ih ys sa s3 es3 hrest]
        cases hy : addSeqE s3 ys with
        | none => simp [hy]
        | some q3 => simp [hy]

/-- Running a counter `Stats` over samples with increasing timestamps and
non-decreasing values accumulates exactly the consecutive rates. -/
theorem addSeqE_counter_rates (vs : List (Int × ℚ)) :
    ∀ (s : Stats) (t0 : Int) (v0 : ℚ),
    s.metricType = "counter" → s.firstVal = false → s.prevTs = t0 → s.prevVal = v0 →
    List.Chain' (fun a b => a.1 < b.1 ∧ a.2 ≤ b.2) ((t0, v0) :: vs) →
    ∃ sF es, addSeqE s vs = some (sF, es) ∧
      sF.vals = s.vals ++ consecRates ((t0, v0) :: vs) ∧
      sF.metricType = "counter" := by
  induction vs with
  | nil =>
    intro s t0 v0 hmt _ _ _ _
    exact ⟨s, [], rfl, by simp [consecRates], hmt⟩
  | cons p rest ih =>
    intro s t0 v0 hmt hfv hts hval hch
    obtain ⟨t1, v1⟩ := p
    have hstep : t0 < t1 ∧ v0 ≤ v1 := List.chain'_cons.mp hch |>.1
    have hch2 : List.Chain' (fun a b => a.1 < b.1 ∧ a.2 ≤ b.2) ((t1, v1) :: rest) :=
      List.chain'_cons.mp hch |>.2
    have hle : s.prevVal ≤ (Metric.mk "" "" v1).number := by
      rw [hval]; exact hstep.2
    rw [addSeqE_cons, add_counter_incr s ⟨"", "", v1⟩ t1 hmt hfv hle]
    simp only [Option.some_bind]
    obtain ⟨sF, es, hrun, hvals, hmtF⟩ :=
      ih ({ s with
            vals := s.vals ++ [((Metric.mk "" "" v1).number - s.prevVal) / ((t1 - s.prevTs : Int) : ℚ)],
            sum := s.sum + ((Metric.mk "" "" v1).number - s.prevVal) / ((t1 - s.prevTs : Int) : ℚ),
            penuTs := s.prevTs, prevTs := t1,
            penuVal := s.prevVal, prevVal := (Metric.mk "" "" v1).number })
        t1 v1 hmt (by simp [hfv]) rfl rfl hch2
    refine ⟨sF, _, by rw [hrun]; rfl, ?_, hmtF⟩
    rw [hvals]
    simp only [hts, hval]
    rw [List.append_assoc]
    congr 1

/-- The consecutive rates of a sequence with increasing timestamps and
non-decreasing values are non-negative. -/
theorem consecRates_nonneg (vs : List (Int × ℚ))
    (hch : List.Chain' (fun a b => a.1 < b.1 ∧ a.2 ≤ b.2) vs) :
    ∀ r ∈ consecRates vs, 0 ≤ r := by
  induction vs with
  | nil => intro r hr; simp [consecRates] at hr
  | cons p rest ih =>
    match rest, hch with
    | [], _ => intro r hr; simp [consecRates] at hr
    | q :: rest2, hch =>
      intro r hr
      obtain ⟨t1, v1⟩ := p
      obtain ⟨t2, v2⟩ := q
      have hstep : t1 < t2 ∧ v1 ≤ v2 := List.chain'_cons.mp hch |>.1
      have hch2 := List.chain'_cons.mp hch |>.2
      unfold consecRates at hr
      rcases List.mem_cons.mp hr with hr | hr
      · subst hr
        apply div_nonneg
        · linarith [hstep.2]
        · have : (0 : Int) ≤ t2 - t1 := by omega
          exact_mod_cast this
      · exact ih hch2 r hr

/-- The number of consecutive rates is the sequence length minus one. -/
theorem consecRates_length (vs : List (Int × ℚ)) :
    (consecRates vs).length = vs.length - 1 := by
  induction vs with
  | nil => simp [consecRates]
  | cons p rest ih =>
    match rest with
    | [] => simp [consecRates]
    | q :: rest2 =>
      obtain ⟨t1, v1⟩ := p
      obtain ⟨t2, v2⟩ := q
      unfold consecRates
      simp only [List.length_cons]
      rw [ih]
      simp

/-- Over a non-decreasing run of counter values, starting from a state whose
penultimate value does not exceed the previous value (or is non-positive),
`Add` never raises a lap error and that state shape is preserved. -/
theorem addSeqE_nondecr_no_err (vs : List (Int × ℚ)) :
    ∀ (s : Stats), s.metricType = "counter" → s.firstVal = false →
    (s.penuVal ≤ s.prevVal ∨ s.penuVal ≤ 0) →
    List.Chain' (fun a b => a ≤ b) (s.prevVal :: vs.map Prod.snd) →
    ∃ sF es, addSeqE s vs = some (sF, es) ∧ (∀ e ∈ es, e = none) ∧
      sF.metricType = "counter" ∧ sF.firstVal = false ∧
      (sF.penuVal ≤ sF.prevVal ∨ sF.penuVal ≤ 0) ∧
      sF.prevVal = (vs.map Prod.snd).getLastD s.prevVal := by
  induction vs with
  | nil =>
    intro s hmt hfv hpen _
    exact ⟨s, [], rfl, by simp, hmt, hfv, hpen, by simp⟩
  | cons p rest ih =>
    intro s hmt hfv hpen hch
    obtain ⟨t1, v1⟩ := p
    simp only [List.map_cons] at hch
    have hle : s.prevVal ≤ v1 := List.chain'_cons.mp hch |>.1
    have hch2 : List.Chain' (fun a b => a ≤ b) (v1 :: rest.map Prod.snd) :=
      List.chain'_cons.mp hch |>.2
    have herr : ¬(0 < s.penuVal ∧ s.prevVal = 0 ∧ s.penuVal < (Metric.mk "" "" v1).number) := by
      rintro ⟨h1, h2, _⟩
      rcases hpen with hp | hp
      · rw [h2] at hp; linarith
      · linarith
    rw [addSeqE_cons, add_counter_incr s ⟨"", "", v1⟩ t1 hmt hfv hle, if_neg herr]
    simp only [Option.some_bind]
    obtain ⟨sF, es, hrun, hnone, h1, h2, h3, h4⟩ :=
      ih ({ s with
            vals := s.vals ++ [((Metric.mk "" "" v1).number - s.prevVal) / ((t1 - s.prevTs : Int) : ℚ)],
            sum := s.sum + ((Metric.mk "" "" v1).number - s.prevVal) / ((t1 - s.prevTs : Int) : ℚ),
            penuTs := s.prevTs, prevTs := t1,
            penuVal := s.prevVal, prevVal := (Metric.mk "" "" v1).number })
        hmt (by simp [hfv]) (by left; simpa using hle) (by simpa using hch2)
    refine ⟨sF, none :: es, by rw [hrun]; rfl, ?_, h1, h2, h3, ?_⟩
    · intro e he
      rcases List.mem_cons.mp he with he | he
      · exact he
      · exact hnone e he
    · simp only [List.map_cons, List.getLastD_cons]
      simpa using h4

/-- Over a strictly decreasing run of counter values, `Add` never appends a
rate sample. -/
theorem addSeqE_strict_decr (vs : List (Int × ℚ)) :
    ∀ (s : Stats), s.metricType = "counter" → s.firstVal = false →
    List.Chain' (fun a b => b < a) (s.prevVal :: vs.map Prod.snd) →
    ∃ sF es, addSeqE s vs = some (sF, es) ∧ sF.vals = s.vals := by
  induction vs with
  | nil =>
    intro s _ _ _
    exact ⟨s, [], rfl, rfl⟩
  | cons p rest ih =>
    intro s hmt hfv hch
    obtain ⟨t1, v1⟩ := p
    simp only [List.map_cons] at hch
    have hlt : v1 < s.prevVal := List.chain'_cons.mp hch |>.1
    have hch2 := List.chain'_cons.mp hch |>.2
    rw [addSeqE_cons, add_counter_reset s ⟨"", "", v1⟩ t1 hmt hfv hlt]
    simp only [Option.some_bind]
    obtain ⟨sF, es, hrun, hvals⟩ :=
      ih ({ s with
            penuTs := s.prevTs, prevTs := t1,
            penuVal := s.prevVal, prevVal := (Metric.mk "" "" v1).number })
        hmt (by simp [hfv]) (by simpa using hch2)
    exact ⟨sF, none :: es, by rw [hrun]; rfl, hvals⟩

/-- C2: for every counter Stats and every sample sequence with strictly
increasing timestamps and non-decreasing values, each `Add` call after the
first appends exactly one rate sample equal to the value delta over the
timestamp delta (so the accumulated list is exactly the consecutive-rate
list), every appended rate is non-negative, and after `Summarize` the
summary's `Cnt` is the sequence length minus one. -/
theorem counter_rates_exact_nonneg_cnt (samples : List (Int × ℚ))
    (hch : List.Chain' (fun a b => a.1 < b.1 ∧ a.2 ≤ b.2) samples) :
    ∃ sF es, addSeqE (freshStats "counter") samples = some (sF, es) ∧
      sF.vals = consecRates samples ∧
      (∀ r ∈ sF.vals, 0 ≤ r) ∧
      (sF.Summarize).Cnt = samples.length - 1 := by
  cases samples with
  | nil =>
    refine ⟨freshStats "counter", [], rfl, by simp [consecRates, freshStats], ?_, ?_⟩
    · intro r hr
      simp [freshStats] at hr
    · rw [summarize_cnt _ (Or.inr rfl)]
      simp [freshStats]
  | cons p rest =>
    obtain ⟨t0, v0⟩ := p
    rw [addSeqE_cons, add_counter_first _ _ _ rfl rfl]
    simp only [Option.some_bind]
    obtain ⟨sF, es, hrun, hvals, hmtF⟩ :=
      addSeqE_counter_rates rest
        ({ freshStats "counter" with
           penuTs := (freshStats "counter").prevTs, prevTs := t0,
           penuVal := (freshStats "counter").prevVal,
           prevVal := (Metric.mk "" "" v0).number, firstVal := false })
        t0 v0 rfl rfl rfl rfl hch
    have hveq : sF.vals = consecRates ((t0, v0) :: rest) := by
      simpa [freshStats] using hvals
    refine ⟨sF, none :: es, by rw [hrun]; rfl, hveq, ?_, ?_⟩
    · rw [hveq]
      exact consecRates_nonneg _ hch
    · rw [summarize_cnt sF (Or.inr hmtF), hveq, consecRates_length]

/-- Witness for the C2 theorem at a concrete increasing counter sequence. -/
theorem counter_rates_exact_nonneg_cnt_witness :
    ∃ sF es, addSeqE (freshStats "counter") [(1, 3), (2, 5), (4, 5)] = some (sF, es) ∧
      sF.vals = consecRates [(1, 3), (2, 5), (4, 5)] ∧
      (∀ r ∈ sF.vals, 0 ≤ r) ∧
      (sF.Summarize).Cnt = ([(1, 3), (2, 5), (4, 5)] : List (Int × ℚ)).length - 1 :=
  counter_rates_exact_nonneg_cnt [(1, 3), (2, 5), (4, 5)]
    (by
      refine List.chain'_cons.mpr ⟨⟨?_, ?_⟩,
        List.chain'_cons.mpr ⟨⟨?_, ?_⟩, List.chain'_singleton _⟩⟩ <;> norm_num)

/-- C10: for every `Stats` whose metric type is gauge or counter — the only
types under which the Aggregator and `NewStats` construct one — `Add`
always totally returns (the panic branch is unreachable), and `NewStats`
only ever constructs such `Stats`. -/
theorem add_total_for_recognized_types :
    (∀ (s : Stats) (m : Metric) (ts : Int),
      s.metricType = "gauge" ∨ s.metricType = "counter" →
      ∃ r, s.Add m ts = some r) ∧
    (∀ (t : String) (s0 : Stats), NewStats t = Except.ok s0 →
      s0.metricType = "gauge" ∨ s0.metricType = "counter") := by
  constructor
  · intro s m ts h
    rcases h with h | h
    · exact ⟨_, add_gauge_eq s m ts h⟩
    · by_cases hf : s.firstVal = false
      · by_cases hle : s.prevVal ≤ m.number
        · exact ⟨_, add_counter_incr s m ts h hf hle⟩
        · exact ⟨_, add_counter_reset s m ts h hf (not_le.mp hle)⟩
      · exact ⟨_, add_counter_first s m ts h (by simpa using hf)⟩
  · intro t s0 h
    unfold NewStats at h
    by_cases ht : MetricTypes t
    · rw [if_pos ht] at h
      injection h with h
      subst h
      simp only [MetricTypes, Bool.or_eq_true, decide_eq_true_eq] at ht
      exact ht
    · rw [if_neg ht] at h
      exact absurd h (by simp)

/-- Witness for the C10 theorem at a concrete counter `Stats`. -/
theorem add_total_for_recognized_types_witness :
    ∃ r, (freshStats "counter").Add ⟨"x", "counter", 5⟩ 1 = some r :=
  add_total_for_recognized_types.1 (freshStats "counter") ⟨"x", "counter", 5⟩ 1 (Or.inr rfl)

/-- C8: `Finalize` returns nil exactly when the sample list is empty, and
otherwise returns a copy carrying only the summarized fields with every
piece of working state (type, flags, pointers, sample list, running sum)
reset to its zero value. -/
theorem finalize_none_iff_and_strips (s : Stats) :
    (s.Finalize = none ↔ s.vals = []) ∧
    (∀ f, s.Finalize = some f →
      f = { metricType := "", str := "", firstVal := false, prevTs := 0, penuTs := 0,
            prevVal := 0, penuVal := 0, vals := [], sum := 0,
            Cnt := s.Summarize.Cnt, Min := s.Summarize.Min, Pct5 := s.Summarize.Pct5,
            Avg := s.Summarize.Avg, Med := s.Summarize.Med, Pct95 := s.Summarize.Pct95,
            Max := s.Summarize.Max }) := by
  unfold Stats.Finalize
  by_cases h : s.vals.length = 0
  · rw [if_pos h]
    constructor
    · simp only [true_iff]
      exact List.length_eq_zero.mp h
    · intro f hf
      exact absurd hf (by simp)
  · rw [if_neg h]
    constructor
    · constructor
      · intro hc
        exact absurd hc (by simp)
      · intro hv
        rw [hv] at h
        simp at h
    · intro f hf
      injection hf with hf
      exact hf.symm

/-- Witness for the C8 theorem: a fresh gauge accumulated nothing, so
`Finalize` is nil. -/
theorem finalize_none_iff_and_strips_witness : (freshStats "gauge").Finalize = none :=
  (finalize_none_iff_and_strips (freshStats "gauge")).1.mpr rfl

/-- C9: a counter metric observed only once in a window — or observed along
a strictly decreasing value sequence — accumulates no rate sample at all,
so `Finalize` returns nil and the metric is omitted even though `Add` was
called. -/
theorem counter_single_or_decreasing_finalize_none :
    (∀ (ts : Int) (v : ℚ), ∃ s2,
      (freshStats "counter").Add ⟨"", "", v⟩ ts = some (s2, none) ∧
      s2.vals = [] ∧ s2.Finalize = none) ∧
    (∀ (p : Int × ℚ) (rest : List (Int × ℚ)),
      List.Chain' (fun a b => b.2 < a.2) (p :: rest) →
      ∃ sF es, addSeqE (freshStats "counter") (p :: rest) = some (sF, es) ∧
        sF.vals = [] ∧ sF.Finalize = none) := by
  constructor
  · intro ts v
    refine ⟨_, add_counter_first (freshStats "counter") ⟨"", "", v⟩ ts rfl rfl, rfl, rfl⟩
  · intro p rest hch
    obtain ⟨t0, v0⟩ := p
    rw [addSeqE_cons, add_counter_first _ _ _ rfl rfl]
    simp only [Option.some_bind]
    have hch2 : List.Chain' (fun a b : ℚ => b < a) (((t0, v0) :: rest).map Prod.snd) :=
      (List.chain'_map Prod.snd).mpr hch
    obtain ⟨sF, es, hrun, hvals⟩ :=
      addSeqE_strict_decr rest
        ({ freshStats "counter" with
           penuTs := (freshStats "counter").prevTs, prevTs := t0,
           penuVal := (freshStats "counter").prevVal,
           prevVal := (Metric.mk "" "" v0).number, firstVal := false })
        rfl rfl (by simpa using hch2)
    have hv : sF.vals = [] := by simpa [freshStats] using hvals
    refine ⟨sF, none :: es, by rw [hrun]; rfl, hv, ?_⟩
    unfold Stats.Finalize
    rw [if_pos (by rw [hv]; rfl)]

/-- Witness for the C9 theorem: a concrete two-sample strictly decreasing
counter sequence accumulates nothing. -/
theorem counter_single_finalize_none_witness :
    ∃ sF es, addSeqE (freshStats "counter") [(1, 9), (2, 4)] = some (sF, es) ∧
      sF.vals = [] ∧ sF.Finalize = none :=
  counter_single_or_decreasing_finalize_none.2 (1, 9) [(2, 4)]
    (by
      refine List.chain'_cons.mpr ⟨?_, List.chain'_singleton _⟩
      norm_num)

/-- Over a non-decreasing run of counter values, `Add` raises no lap error
provided the starting state satisfies the loop invariant: the penultimate
value does not exceed the previous one, or is non-positive, or every
upcoming value stays below it. -/
theorem addSeqE_inv_no_err (vs : List (Int × ℚ)) :
    ∀ (s : Stats), s.metricType = "counter" → s.firstVal = false →
    (s.penuVal ≤ s.prevVal ∨ s.penuVal ≤ 0 ∨ ∀ v ∈ vs.map Prod.snd, v < s.penuVal) →
    List.Chain' (fun a b : ℚ => a ≤ b) (s.prevVal :: vs.map Prod.snd) →
    ∃ sF es, addSeqE s vs = some (sF, es) ∧ ∀ e ∈ es, e = none := by
  induction vs with
  | nil =>
    intro s _ _ _ _
    exact ⟨s, [], rfl, by simp⟩
  | cons p rest ih =>
    intro s hmt hfv hinv hch
    obtain ⟨t1, v1⟩ := p
    simp only [List.map_cons] at hch hinv
    have hle : s.prevVal ≤ v1 := List.chain'_cons.mp hch |>.1
    have hch2 : List.Chain' (fun a b : ℚ => a ≤ b) (v1 :: rest.map Prod.snd) :=
      List.chain'_cons.mp hch |>.2
    have herr : ¬(0 < s.penuVal ∧ s.prevVal = 0 ∧ s.penuVal < (Metric.mk "" "" v1).number) := by
      rintro ⟨h1, h2, h3⟩
      rcases hinv with hp | hp | hp
      · rw [h2] at hp; linarith
      · linarith
      · have := hp v1 (List.mem_cons_self _ _)
        simp only at h3
        linarith
    rw [addSeqE_cons, add_counter_incr s ⟨"", "", v1⟩ t1 hmt hfv hle, if_neg herr]
    simp only [Option.some_bind]
    obtain ⟨sF, es, hrun, hnone⟩ :=
      ih ({ s with
            vals := s.vals ++ [((Metric.mk "" "" v1).number - s.prevVal) / ((t1 - s.prevTs : Int) : ℚ)],
            sum := s.sum + ((Metric.mk "" "" v1).number - s.prevVal) / ((t1 - s.prevTs : Int) : ℚ),
            penuTs := s.prevTs, prevTs := t1,
            penuVal := s.prevVal, prevVal := (Metric.mk "" "" v1).number })
        hmt (by simp [hfv]) (by left; simpa using hle) (by simpa using hch2)
    refine ⟨sF, none :: es, by rw [hrun]; rfl, ?_⟩
    intro e he
    rcases List.mem_cons.mp he with he | he
    · exact he
    · exact hnone e he

/-- After a counter reset (a value strictly below the previous one), a
non-decreasing continuation that stays strictly below the pre-reset value
raises no lap error. -/
theorem addSeqE_one_reset_tail (td : Int) (vd : ℚ) (post : List (Int × ℚ)) (s : Stats)
    (hmt : s.metricType = "counter") (hfv : s.firstVal = false)
    (hdrop : vd < s.prevVal)
    (hpost : List.Chain' (fun a b : ℚ => a ≤ b) (vd :: post.map Prod.snd))
    (hbelow : ∀ q ∈ post, q.2 < s.prevVal) :
    ∃ sT esT, addSeqE s ((td, vd) :: post) = some (sT, esT) ∧ ∀ e ∈ esT, e = none := by
  rw [addSeqE_cons,
    add_counter_reset s ⟨"", "", vd⟩ td hmt hfv (by simpa using hdrop)]
  simp only [Option.some_bind]
  obtain ⟨sT, esT, hrun, hnone⟩ :=
    addSeqE_inv_no_err post
      ({ s with
         penuTs := s.prevTs, prevTs := td,
         penuVal := s.prevVal, prevVal := (Metric.mk "" "" vd).number })
      hmt (by simp [hfv])
      (by
        right; right
        intro v hv
        simp only [List.mem_map] at hv
        obtain ⟨q, hq, hqv⟩ := hv
        have := hbelow q hq
        simp only
        rw [← hqv]
        exact this)
      (by simpa using hpost)
  refine ⟨sT, none :: esT, by rw [hrun]; rfl, ?_⟩
  intro e he
  rcases List.mem_cons.mp he with he | he
  · exact he
  · exact hnone e he

/-- C3 (amended): a non-first counter `Add` raises a lap error exactly when
the previous value is a reset to exactly zero, the penultimate value is
positive, and the new value exceeds that penultimate (pre-reset) value;
a sequence with exactly one decrease followed only by values below the
pre-reset peak never raises a lap error; and a raised lap error is
non-fatal: the rate sample is still appended and the pointers advance. -/
theorem counter_lap_error_exact :
    (∀ (s : Stats) (m : Metric) (ts : Int) (s2 : Stats) (e : Option LapError),
      s.metricType = "counter" → s.firstVal = false →
      s.Add m ts = some (s2, e) →
      (e.isSome ↔ (0 < s.penuVal ∧ s.prevVal = 0 ∧ s.penuVal < m.number))) ∧
    (∀ (p0 : Int × ℚ) (pre : List (Int × ℚ)) (d : Int × ℚ) (post : List (Int × ℚ)),
      List.Chain' (fun a b : ℚ => a ≤ b) (p0.2 :: pre.map Prod.snd) →
      d.2 < (pre.map Prod.snd).getLastD p0.2 →
      List.Chain' (fun a b : ℚ => a ≤ b) (d.2 :: post.map Prod.snd) →
      (∀ q ∈ post, q.2 < (pre.map Prod.snd).getLastD p0.2) →
      ∃ sF es, addSeqE (freshStats "counter") ((p0 :: pre) ++ d :: post) = some (sF, es) ∧
        ∀ e ∈ es, e = none) ∧
    (∀ (s : Stats) (m : Metric) (ts : Int) (s2 : Stats) (le : LapError),
      s.Add m ts = some (s2, some le) →
      s2.vals = s.vals ++ [(m.number - s.prevVal) / ((ts - s.prevTs : Int) : ℚ)] ∧
      s2.prevTs = ts ∧ s2.penuTs = s.prevTs ∧
      s2.prevVal = m.number ∧ s2.penuVal = s.prevVal) := by
  refine ⟨?_, ?_, ?_⟩
  · intro s m ts s2 e hmt hfv hadd
    by_cases hle : s.prevVal ≤ m.number
    · rw [add_counter_incr s m ts hmt hfv hle] at hadd
      injection hadd with hadd
      have he : e = if 0 < s.penuVal ∧ s.prevVal = 0 ∧ s.penuVal < m.number then
          some ⟨s.penuTs, s.prevTs, ts, s.penuVal, s.prevVal, m.number⟩
        else none := by
        have := congrArg Prod.snd hadd
        simpa using this.symm
      by_cases hc : 0 < s.penuVal ∧ s.prevVal = 0 ∧ s.penuVal < m.number
      · rw [if_pos hc] at he
        subst he
        simp [hc]
      · rw [if_neg hc] at he
        subst he
        simp [hc]
    · rw [add_counter_reset s m ts hmt hfv (not_le.mp hle)] at hadd
      injection hadd with hadd
      have he : e = none := by
        have := congrArg Prod.snd hadd
        simpa using this.symm
      subst he
      simp only [Option.isSome_none, Bool.false_eq_true, false_iff]
      rintro ⟨h1, h2, h3⟩
      apply hle
      rw [h2]
      exact le_of_lt (lt_trans h1 h3)
  · intro p0 pre d post hpre hdrop hpost hbelow
    obtain ⟨t0, v0⟩ := p0
    obtain ⟨td, vd⟩ := d
    rw [List.cons_append, addSeqE_cons, add_counter_first _ _ _ rfl rfl]
    simp only [Option.some_bind]
    obtain ⟨s2, es2, hrun2, hnone2, hmt2, hfv2, hpen2, hprev2⟩ :=
      addSeqE_nondecr_no_err pre
        ({ freshStats "counter" with
           penuTs := (freshStats "counter").prevTs, prevTs := t0,
           penuVal := (freshStats "counter").prevVal,
           prevVal := (Metric.mk "" "" v0).number, firstVal := false })
        rfl rfl (by right; norm_num [freshStats]) (by simpa using hpre)
    have hpeak : s2.prevVal = (pre.map Prod.snd).getLastD v0 := by
      simpa using hprev2
    obtain ⟨sT, esT, hrunT, hnoneT⟩ :=
      addSeqE_one_reset_tail td vd post s2 hmt2 hfv2
        (by rw [hpeak]; exact hdrop)
        hpost
        (by intro q hq; rw [hpeak]; exact hbelow q hq)
    rw [addSeqE_append pre ((td, vd) :: post) _ s2 es2 hrun2, hrunT]
    refine ⟨sT, none :: (es2 ++ esT), rfl, ?_⟩
    intro e he
    rcases List.mem_cons.mp he with he | he
    · exact he
    rcases List.mem_append.mp he with he | he
    · exact hnone2 e he
    · exact hnoneT e he
  · intro s m ts s2 le hadd
    have hmt : ¬s.metricType = "gauge" := by
      intro hg
      rw [add_gauge_eq s m ts hg] at hadd
      have := congrArg Prod.snd (Option.some.inj hadd)
      simp at this
    unfold Stats.Add at hadd
    rw [if_neg hmt] at hadd
    by_cases hc : s.metricType = "counter"
    · rw [if_pos hc] at hadd
      by_cases hfv : s.firstVal = false
      · rw [if_pos hfv] at hadd
        by_cases hle : s.prevVal ≤ m.number
        · rw [if_pos hle] at hadd
          have h1 := congrArg Prod.fst (Option.some.inj hadd)
          simp only at h1
          rw [← h1]
          exact ⟨rfl, rfl, rfl, rfl, rfl⟩
        · rw [if_neg hle] at hadd
          have := congrArg Prod.snd (Option.some.inj hadd)
          simp at this
      · rw [if_neg hfv] at hadd
        have := congrArg Prod.snd (Option.some.inj hadd)
        simp at this
    · rw [if_neg hc] at hadd
      exact absurd hadd (by simp)

/-- Counterexample to C3 as stated: in the counter sequence
(ts 1, 100), (ts 2, 5), (ts 3, 200) the value decreases (5 < 100) and is
then followed by 200, which exceeds the pre-reset peak 100 — yet no `Add`
call returns a lap error, because the code additionally requires the reset
value to be exactly zero. -/
theorem lap_error_claim_counterexample :
    (5 : ℚ) < 100 ∧ (100 : ℚ) < 200 ∧
    (addSeqE (freshStats "counter") [(1, 100), (2, 5), (3, 200)]).map (fun p => p.2) =
      some [none, none, none] := by
  refine ⟨by norm_num, by norm_num, ?_⟩
  rw [addSeqE_cons, add_counter_first _ _ _ rfl rfl]
  simp only [Option.some_bind]
  rw [addSeqE_cons, add_counter_reset _ _ _ rfl rfl (by norm_num [freshStats])]
  simp only [Option.some_bind]
  rw [addSeqE_cons, add_counter_incr _ _ _ rfl rfl (by norm_num [freshStats])]
  rw [if_neg (by rintro ⟨_, h, _⟩; norm_num [freshStats] at h)]
  simp only [Option.some_bind]
  rfl

/-- Witness for the C3 theorem: a reset step (100 then 5) returns a nil lap
error, matching the characterization's right-hand side being false. -/
theorem counter_lap_error_exact_witness :
    (none : Option LapError).isSome ↔ (0 < (0 : ℚ) ∧ (100 : ℚ) = 0 ∧ (0 : ℚ) < 5) :=
  counter_lap_error_exact.1
    ({ freshStats "counter" with firstVal := false, prevTs := 1, prevVal := 100 })
    ⟨"", "", 5⟩ 2 _ _ rfl rfl
    (add_counter_reset _ ⟨"", "", 5⟩ 2 rfl rfl (by norm_num [freshStats]))

/-- A gauge `Stats` accumulates exactly the raw values of its samples. -/
theorem addSeqE_gauge (vs : List (Int × ℚ)) :
    ∀ (s : Stats), s.metricType = "gauge" →
    ∃ sF es, addSeqE s vs = some (sF, es) ∧
      sF.vals = s.vals ++ vs.map Prod.snd ∧ sF.metricType = "gauge" := by
  induction vs with
  | nil =>
    intro s hmt
    exact ⟨s, [], rfl, by simp, hmt⟩
  | cons p rest ih =>
    intro s hmt
    obtain ⟨t1, v1⟩ := p
    rw [addSeqE_cons, add_gauge_eq s ⟨"", "", v1⟩ t1 hmt]
    simp only [Option.some_bind]
    obtain ⟨sF, es, hrun, hvals, hmtF⟩ :=
      ih ({ s with
            vals := s.vals ++ [(Metric.mk "" "" v1).number],
            sum := s.sum + (Metric.mk "" "" v1).number }) (by simpa using hmt)
    refine ⟨sF, none :: es, by rw [hrun]; rfl, ?_, hmtF⟩
    rw [hvals]
    simp

/-- The sorted list is sorted. -/
theorem sortVals_sorted (l : List ℚ) : List.Sorted (fun a b => a ≤ b) (sortVals l) :=
  List.sorted_insertionSort (fun a b => a ≤ b) l

/-- Sorting preserves length. -/
theorem sortVals_length (l : List ℚ) : (sortVals l).length = l.length :=
  (List.perm_insertionSort (fun a b => a ≤ b) l).length_eq

/-- In the sorted list, a smaller index yields a value no larger. -/
theorem sortVals_getD_le (l : List ℚ) (i j : Nat) (hij : i ≤ j) (hj : j < l.length) :
    (sortVals l).getD i 0 ≤ (sortVals l).getD j 0 := by
  have hlen := sortVals_length l
  rw [List.getD_eq_get _ 0 (by omega), List.getD_eq_get _ 0 (by omega)]
  exact (sortVals_sorted l).rel_get_of_le (by simpa using hij)

/-- An in-range entry of the sorted list is one of the original values. -/
theorem sortVals_getD_mem (l : List ℚ) (i : Nat) (hi : i < l.length) :
    (sortVals l).getD i 0 ∈ l := by
  have hlen := sortVals_length l
  rw [List.getD_eq_get _ 0 (by omega)]
  exact (List.perm_insertionSort (fun a b => a ≤ b) l).mem_iff.mp
    (List.get_mem (sortVals l) i (by omega))

/-- For a recognized metric type with at least one accumulated value, each
location statistic of `Summarize` is the sorted list's entry at the code's
percentile index. -/
theorem summarize_location_fields (s : Stats)
    (h : s.metricType = "gauge" ∨ s.metricType = "counter") (hne : s.vals ≠ []) :
    (s.Summarize).Min = (sortVals s.vals).getD 0 0 ∧
    (s.Summarize).Pct5 = (sortVals s.vals).getD ((5 * s.vals.length) / 100) 0 ∧
    (s.Summarize).Med = (sortVals s.vals).getD ((50 * s.vals.length) / 100) 0 ∧
    (s.Summarize).Pct95 = (sortVals s.vals).getD ((95 * s.vals.length) / 100) 0 ∧
    (s.Summarize).Max = (sortVals s.vals).getD (s.vals.length - 1) 0 := by
  unfold Stats.Summarize
  rw [if_pos h]
  by_cases h1 : 1 < s.vals.length
  · rw [if_pos h1]
    exact ⟨rfl, rfl, rfl, rfl, rfl⟩
  · rw [if_neg h1]
    have h2 : s.vals.length = 1 := by
      cases hl : s.vals.length with
      | zero => exact absurd (List.length_eq_zero.mp hl) hne
      | succ k => omega
    rw [if_pos h2]
    obtain ⟨a, ha⟩ := List.length_eq_one.mp h2
    rw [ha]
    refine ⟨?_, ?_, ?_, ?_, ?_⟩ <;>
      simp [sortVals, List.insertionSort, List.orderedInsert]

/-- C4: for every non-empty gauge sample sequence, after `Summarize` the
summary satisfies Min ≤ Pct5 ≤ Med ≤ Pct95 ≤ Max, each of the five
location fields is one of the observed values (no interpolation), and
Pct5, Med and Pct95 are the ascending-sorted list's entries at index
floor(p/100 times Cnt) for p = 5, 50, 95. -/
theorem gauge_summarize_percentiles (samples : List (Int × ℚ)) (hne : samples ≠ []) :
    ∃ sF es, addSeqE (freshStats "gauge") samples = some (sF, es) ∧
      sF.vals = samples.map Prod.snd ∧
      (sF.Summarize).Cnt = samples.length ∧
      ((sF.Summarize).Min ≤ (sF.Summarize).Pct5 ∧
       (sF.Summarize).Pct5 ≤ (sF.Summarize).Med ∧
       (sF.Summarize).Med ≤ (sF.Summarize).Pct95 ∧
       (sF.Summarize).Pct95 ≤ (sF.Summarize).Max) ∧
      ((sF.Summarize).Min ∈ samples.map Prod.snd ∧
       (sF.Summarize).Pct5 ∈ samples.map Prod.snd ∧
       (sF.Summarize).Med ∈ samples.map Prod.snd ∧
       (sF.Summarize).Pct95 ∈ samples.map Prod.snd ∧
       (sF.Summarize).Max ∈ samples.map Prod.snd) ∧
      (sF.Summarize).Pct5 = (sortVals (samples.map Prod.snd)).getD ((5 * samples.length) / 100) 0 ∧
      (sF.Summarize).Med = (sortVals (samples.map Prod.snd)).getD ((50 * samples.length) / 100) 0 ∧
      (sF.Summarize).Pct95 = (sortVals (samples.map Prod.snd)).getD ((95 * samples.length) / 100) 0 := by
  obtain ⟨sF, es, hrun, hvals, hmtF⟩ := addSeqE_gauge samples (freshStats "gauge") rfl
  have hvals2 : sF.vals = samples.map Prod.snd := by simpa [freshStats] using hvals
  have hlen : sF.vals.length = samples.length := by rw [hvals2]; simp
  have hne2 : sF.vals ≠ [] := by
    rw [hvals2]
    intro hc
    exact hne (List.map_eq_nil.mp hc)
  have hpos : 0 < samples.length := List.length_pos.mpr hne
  obtain ⟨hMin, hPct5, hMed, hPct95, hMax⟩ :=
    summarize_location_fields sF (Or.inl hmtF) hne2
  have hlenm0 : (samples.map Prod.snd).length = samples.length := by simp
  simp only [hvals2, hlenm0] at hMin hPct5 hMed hPct95 hMax
  have hi5 : (5 * samples.length) / 100 ≤ (50 * samples.length) / 100 :=
    Nat.div_le_div_right (by omega)
  have hi50 : (50 * samples.length) / 100 ≤ (95 * samples.length) / 100 :=
    Nat.div_le_div_right (by omega)
  have hi95 : (95 * samples.length) / 100 < samples.length := by
    rw [Nat.div_lt_iff_lt_mul (by norm_num)]
    omega
  have hlenm : (samples.map Prod.snd).length = samples.length := by simp
  refine ⟨sF, es, hrun, hvals2, ?_, ⟨?_, ?_, ?_, ?_⟩, ⟨?_, ?_, ?_, ?_, ?_⟩, hPct5, hMed, hPct95⟩
  · rw [summarize_cnt sF (Or.inl hmtF), hvals2, hlenm]
  · rw [hMin, hPct5]
    exact sortVals_getD_le _ 0 _ (Nat.zero_le _) (by omega)
  · rw [hPct5, hMed]
    exact sortVals_getD_le _ _ _ hi5 (by omega)
  · rw [hMed, hPct95]
    exact sortVals_getD_le _ _ _ hi50 (by omega)
  · rw [hPct95, hMax]
    exact sortVals_getD_le _ _ _ (by omega) (by omega)
  · rw [hMin]
    exact sortVals_getD_mem _ 0 (by omega)
  · rw [hPct5]
    exact sortVals_getD_mem _ _ (by omega)
  · rw [hMed]
    exact sortVals_getD_mem _ _ (by omega)
  · rw [hPct95]
    exact sortVals_getD_mem _ _ (by omega)
  · rw [hMax]
    exact sortVals_getD_mem _ _ (by omega)

/-- Witness for the C4 theorem at a concrete three-sample gauge sequence. -/
theorem gauge_summarize_percentiles_witness :
    ∃ sF es, addSeqE (freshStats "gauge") [(0, 3), (1, 1), (2, 2)] = some (sF, es) ∧
      sF.vals = ([(0, 3), (1, 1), (2, 2)] : List (Int × ℚ)).map Prod.snd ∧
      (sF.Summarize).Cnt = ([(0, 3), (1, 1), (2, 2)] : List (Int × ℚ)).length ∧
      ((sF.Summarize).Min ≤ (sF.Summarize).Pct5 ∧
       (sF.Summarize).Pct5 ≤ (sF.Summarize).Med ∧
       (sF.Summarize).Med ≤ (sF.Summarize).Pct95 ∧
       (sF.Summarize).Pct95 ≤ (sF.Summarize).Max) ∧
      ((sF.Summarize).Min ∈ ([(0, 3), (1, 1), (2, 2)] : List (Int × ℚ)).map Prod.snd ∧
       (sF.Summarize).Pct5 ∈ ([(0, 3), (1, 1), (2, 2)] : List (Int × ℚ)).map Prod.snd ∧
       (sF.Summarize).Med ∈ ([(0, 3), (1, 1), (2, 2)] : List (Int × ℚ)).map Prod.snd ∧
       (sF.Summarize).Pct95 ∈ ([(0, 3), (1, 1), (2, 2)] : List (Int × ℚ)).map Prod.snd ∧
       (sF.Summarize).Max ∈ ([(0, 3), (1, 1), (2, 2)] : List (Int × ℚ)).map Prod.snd) ∧
      (sF.Summarize).Pct5 =
        (sortVals (([(0, 3), (1, 1), (2, 2)] : List (Int × ℚ)).map Prod.snd)).getD
          ((5 * ([(0, 3), (1, 1), (2, 2)] : List (Int × ℚ)).length) / 100) 0 ∧
      (sF.Summarize).Med =
        (sortVals (([(0, 3), (1, 1), (2, 2)] : List (Int × ℚ)).map Prod.snd)).getD
          ((50 * ([(0, 3), (1, 1), (2, 2)] : List (Int × ℚ)).length) / 100) 0 ∧
      (sF.Summarize).Pct95 =
        (sortVals (([(0, 3), (1, 1), (2, 2)] : List (Int × ℚ)).map Prod.snd)).getD
          ((95 * ([(0, 3), (1, 1), (2, 2)] : List (Int × ℚ)).length) / 100) 0 :=
  gauge_summarize_percentiles [(0, 3), (1, 1), (2, 2)] (by simp)

/-- C5: in one Sender cycle, a 2xx ack removes the unit and counts it as
sent; a 4xx ack removes the unit and counts it as sent and bad; a code of
500 or more sets the API-error flag, keeps the unit, and stops the whole
cycle with a nil (non-generic) error; concretely, three units acked
204, 204, 503 leave exactly the third in the spool with 2 sent and the
API-error flag set. -/
theorem sender_ack_code_handling :
    (∀ (st : SenderCounts) (f : SpoolFile) (rest : List SpoolFile),
      200 ≤ f.code → f.code < 300 → f.data ≠ [] →
      sendAllFiles false st (f :: rest) =
        ((sendAllFiles false { st with
            sent := st.sent + 1, sentBytes := st.sentBytes + f.data.length } rest).1,
         f.name :: (sendAllFiles false { st with
            sent := st.sent + 1, sentBytes := st.sentBytes + f.data.length } rest).2.1,
         (sendAllFiles false { st with
            sent := st.sent + 1, sentBytes := st.sentBytes + f.data.length } rest).2.2)) ∧
    (∀ (st : SenderCounts) (f : SpoolFile) (rest : List SpoolFile),
      400 ≤ f.code → f.code < 500 → f.data ≠ [] →
      sendAllFiles false st (f :: rest) =
        ((sendAllFiles false { st with
            sent := st.sent + 1, bad := st.bad + 1,
            sentBytes := st.sentBytes + f.data.length } rest).1,
         f.name :: (sendAllFiles false { st with
            sent := st.sent + 1, bad := st.bad + 1,
            sentBytes := st.sentBytes + f.data.length } rest).2.1,
         (sendAllFiles false { st with
            sent := st.sent + 1, bad := st.bad + 1,
            sentBytes := st.sentBytes + f.data.length } rest).2.2)) ∧
    (∀ (st : SenderCounts) (f : SpoolFile) (rest : List SpoolFile),
      500 ≤ f.code → f.data ≠ [] →
      sendAllFiles false st (f :: rest) =
        ({ st with sentBytes := st.sentBytes + f.data.length, apiErr := true },
         [], SendOutcome.done)) ∧
    (sendAllFiles false ⟨0, 0, 0, false⟩
        [⟨"a", [1], 204⟩, ⟨"b", [2], 204⟩, ⟨"c", [3], 503⟩] =
      (⟨2, 0, 3, true⟩, ["a", "b"], SendOutcome.done) ∧
     ([⟨"a", [1], 204⟩, ⟨"b", [2], 204⟩, ⟨"c", [3], 503⟩] : List SpoolFile).filter
        (fun f => decide (f.name ∉ (["a", "b"] : List String))) = [⟨"c", [3], 503⟩]) := by
  refine ⟨?_, ?_, ?_, ?_, ?_⟩
  · intro st f rest h2 h3 hd
    have hd0 : ¬f.data.length = 0 := by
      intro hc
      exact hd (List.length_eq_zero.mp hc)
    have h5 : ¬500 ≤ f.code := by omega
    have h4 : ¬400 ≤ f.code := by omega
    have h30 : ¬300 ≤ f.code := by omega
    simp only [sendAllFiles, if_neg hd0, if_neg h5, if_neg h4, if_neg h30, if_pos h2,
      Bool.false_eq_true, if_false]
  · intro st f rest h4 h5 hd
    have hd0 : ¬f.data.length = 0 := by
      intro hc
      exact hd (List.length_eq_zero.mp hc)
    have h5' : ¬500 ≤ f.code := by omega
    simp only [sendAllFiles, if_neg hd0, if_neg h5', if_pos h4,
      Bool.false_eq_true, if_false]
  · intro st f rest h5 hd
    have hd0 : ¬f.data.length = 0 := by
      intro hc
      exact hd (List.length_eq_zero.mp hc)
    simp only [sendAllFiles, if_neg hd0, if_pos h5, Bool.false_eq_true, if_false]
  · rfl
  · rfl

/-- Witness for the C5 theorem: a single unit acked 204 is removed and
counted as sent. -/
theorem sender_ack_code_handling_witness :
    sendAllFiles false ⟨0, 0, 0, false⟩ [⟨"x", [7], 204⟩] =
      ((sendAllFiles false ⟨0 + 1, 0, 0 + 1, false⟩ []).1,
       "x" :: (sendAllFiles false ⟨0 + 1, 0, 0 + 1, false⟩ []).2.1,
       (sendAllFiles false ⟨0 + 1, 0, 0 + 1, false⟩ []).2.2) :=
  sender_ack_code_handling.1 ⟨0, 0, 0, false⟩ ⟨"x", [7], 204⟩ []
    (by norm_num) (by norm_num) (by simp)

/-- The error carried out of a run of `i` failed attempts starting at
attempt `k`, with `le` the error carried in. -/
def lastErrOf (outcomes : Nat → Attempt) (k : Nat) : Nat → Option String → Option String
  | 0, le => le
  | i + 1, _ => lastErrOf outcomes (k + 1) i ((outcomes k).err)

/-- `backoffSeq` produces one wait per attempt. -/
theorem backoffSeq_length (b : Backoff) (n : Nat) : (backoffSeq b n).length = n := by
  induction n generalizing b with
  | zero => rfl
  | succ k ih => simp [backoffSeq, ih]

/-- `lastErrOf` over at least one failed attempt is the last attempt's
error. -/
theorem lastErrOf_pos (outcomes : Nat → Attempt) (i : Nat) :
    ∀ (k : Nat) (le : Option String), 0 < i →
    lastErrOf outcomes k i le = (outcomes (k + i - 1)).err := by
  induction i with
  | zero => intro k le h; omega
  | succ m ih =>
    intro k le _
    cases Nat.eq_zero_or_pos m with
    | inl h0 =>
      subst h0
      simp [lastErrOf]
    | inr hpos =>
      unfold lastErrOf
      rw [ih (k + 1) ((outcomes k).err) hpos]
      have harith : k + 1 + m - 1 = k + (m + 1) - 1 := by omega
      rw [harith]

/-- A fully failing run of the `Connect` loop: every attempt sleeps its
backoff wait, every failed liveness probe closes its handle, the connection
is not recorded, and the loop falls through to the descriptive failure. -/
theorem connectAux_all_fail (i : Nat) :
    ∀ (outcomes : Nat → Attempt) (tries0 k : Nat) (st : ConnState)
      (sleeps closed : List Nat) (lastErr : Option String),
    (∀ j, j < i → (outcomes (k + j)).failed = true) →
    Connection.connectAux outcomes tries0 i k st sleeps closed lastErr =
      ⟨⟨st.conn, backoffIter st.backoff i⟩,
       sleeps ++ backoffSeq st.backoff i,
       closed ++ closedOfFrom outcomes k i,
       some (connectFailMsg tries0 (lastErrOf outcomes k i lastErr))⟩ := by
  induction i with
  | zero =>
    intro outcomes tries0 k st sleeps closed lastErr _
    simp [Connection.connectAux, backoffIter, backoffSeq, closedOfFrom, lastErrOf]
  | succ m ih =>
    intro outcomes tries0 k st sleeps closed lastErr hfail
    unfold Connection.connectAux
    cases ho : outcomes k with
    | ok h =>
      have := hfail 0 (by omega)
      rw [Nat.add_zero, ho] at this
      simp [Attempt.failed] at this
    | openFail e =>
      dsimp only
      rw [ih outcomes tries0 (k + 1) ⟨st.conn, (st.backoff.wait).2⟩
        (sleeps ++ [(st.backoff.wait).1]) closed (some e)
        (by intro j hj; have := hfail (j + 1) (by omega); rwa [show k + (j + 1) = k + 1 + j by omega] at this)]
      simp only [backoffIter, backoffSeq, closedOfFrom, lastErrOf, ho, Attempt.err]
      rw [List.append_assoc]
      simp
    | pingFail h e =>
      dsimp only
      rw [ih outcomes tries0 (k + 1) ⟨st.conn, (st.backoff.wait).2⟩
        (sleeps ++ [(st.backoff.wait).1]) (closed ++ [h]) (some e)
        (by intro j hj; have := hfail (j + 1) (by omega); rwa [show k + (j + 1) = k + 1 + j by omega] at this)]
      simp only [backoffIter, backoffSeq, closedOfFrom, lastErrOf, ho, Attempt.err]
      rw [List.append_assoc, List.append_assoc]
      simp

/-- A `Connect` loop whose first success is attempt `m` (zero-based): the
loop sleeps `m + 1` backoff waits, closes the handles of the failed
liveness probes before `m`, records the live handle, resets the backoff
via `Success()`, and returns a nil error. -/
theorem connectAux_first_success (m : Nat) :
    ∀ (outcomes : Nat → Attempt) (tries0 i k : Nat) (st : ConnState)
      (sleeps closed : List Nat) (lastErr : Option String) (h : Nat),
    (∀ j, j < m → (outcomes (k + j)).failed = true) →
    outcomes (k + m) = Attempt.ok h →
    m < i →
    Connection.connectAux outcomes tries0 i k st sleeps closed lastErr =
      ⟨⟨some h, (backoffIter st.backoff (m + 1)).success⟩,
       sleeps ++ backoffSeq st.backoff (m + 1),
       closed ++ closedOfFrom outcomes k m,
       none⟩ := by
  induction m with
  | zero =>
    intro outcomes tries0 i k st sleeps closed lastErr h _ hok hm
    cases i with
    | zero => omega
    | succ i2 =>
      unfold Connection.connectAux
      rw [Nat.add_zero] at hok
      rw [hok]
      simp [backoffIter, backoffSeq, closedOfFrom]
  | succ m2 ih =>
    intro outcomes tries0 i k st sleeps closed lastErr h hfail hok hm
    cases i with
    | zero => omega
    | succ i2 =>
      unfold Connection.connectAux
      cases ho : outcomes k with
      | ok h2 =>
        have := hfail 0 (by omega)
        rw [Nat.add_zero, ho] at this
        simp [Attempt.failed] at this
      | openFail e =>
        dsimp only
        rw [ih outcomes tries0 i2 (k + 1) ⟨st.conn, (st.backoff.wait).2⟩
          (sleeps ++ [(st.backoff.wait).1]) closed (some e) h
          (by intro j hj; have := hfail (j + 1) (by omega); rwa [show k + (j + 1) = k + 1 + j by omega] at this)
          (by rwa [show k + 1 + m2 = k + (m2 + 1) by omega])
          (by omega)]
        simp only [backoffIter, backoffSeq, closedOfFrom, ho]
        rw [List.append_assoc]
        simp
      | pingFail h2 e =>
        dsimp only
        rw [ih outcomes tries0 i2 (k + 1) ⟨st.conn, (st.backoff.wait).2⟩
          (sleeps ++ [(st.backoff.wait).1]) (closed ++ [h2]) (some e) h
          (by intro j hj; have := hfail (j + 1) (by omega); rwa [show k + (j + 1) = k + 1 + j by omega] at this)
          (by rwa [show k + 1 + m2 = k + (m2 + 1) by omega])
          (by omega)]
        simp only [backoffIter, backoffSeq, closedOfFrom, ho]
        rw [List.append_assoc, List.append_assoc]
        simp

/-- The sleeps any `Connect` loop run performs are an initial segment of
the successive backoff waits, one per attempt made. -/
theorem connectAux_sleeps (i : Nat) :
    ∀ (outcomes : Nat → Attempt) (tries0 k : Nat) (st : ConnState)
      (sleeps closed : List Nat) (lastErr : Option String),
    ∃ n, n ≤ i ∧
      (Connection.connectAux outcomes tries0 i k st sleeps closed lastErr).sleeps =
        sleeps ++ backoffSeq st.backoff n := by
  induction i with
  | zero =>
    intro outcomes tries0 k st sleeps closed lastErr
    exact ⟨0, le_refl 0, by simp [Connection.connectAux, backoffSeq]⟩
  | succ m ih =>
    intro outcomes tries0 k st sleeps closed lastErr
    unfold Connection.connectAux
    cases ho : outcomes k with
    | ok h =>
      refine ⟨1, by omega, ?_⟩
      simp [backoffSeq]
    | openFail e =>
      obtain ⟨n, hn, hs⟩ := ih outcomes tries0 (k + 1) ⟨st.conn, (st.backoff.wait).2⟩
        (sleeps ++ [(st.backoff.wait).1]) closed (some e)
      refine ⟨n + 1, by omega, ?_⟩
      rw [hs, List.append_assoc]
      simp [backoffSeq]
    | pingFail h e =>
      obtain ⟨n, hn, hs⟩ := ih outcomes tries0 (k + 1) ⟨st.conn, (st.backoff.wait).2⟩
        (sleeps ++ [(st.backoff.wait).1]) (closed ++ [h]) (some e)
      refine ⟨n + 1, by omega, ?_⟩
      rw [hs, List.append_assoc]
      simp [backoffSeq]

/-- C7: `Connect(0)` succeeds immediately with no attempt; with positive
`tries` it makes at most `tries` attempts, sleeping the successive
Backoff-computed waits (one before each attempt); the first attempt that
opens and passes the liveness probe records the handle, calls `Success()`
on the backoff and returns nil, with every prior failed probe's handle
closed; and when all `tries` attempts fail it returns the descriptive
error naming `tries` and carrying the last attempt's underlying error. -/
theorem connect_retry_contract :
    (∀ (outcomes : Nat → Attempt) (st : ConnState),
      Connection.Connect outcomes st 0 = ⟨st, [], [], none⟩) ∧
    (∀ (outcomes : Nat → Attempt) (st : ConnState) (tries : Nat),
      (Connection.Connect outcomes st tries).sleeps.length ≤ tries ∧
      (Connection.Connect outcomes st tries).sleeps =
        backoffSeq st.backoff (Connection.Connect outcomes st tries).sleeps.length) ∧
    (∀ (outcomes : Nat → Attempt) (st : ConnState) (tries m h : Nat),
      (∀ j, j < m → (outcomes j).failed = true) →
      outcomes m = Attempt.ok h → m < tries →
      Connection.Connect outcomes st tries =
        ⟨⟨some h, (backoffIter st.backoff (m + 1)).success⟩,
         backoffSeq st.backoff (m + 1), closedOfFrom outcomes 0 m, none⟩) ∧
    (∀ (outcomes : Nat → Attempt) (st : ConnState) (tries : Nat),
      0 < tries → (∀ j, j < tries → (outcomes j).failed = true) →
      Connection.Connect outcomes st tries =
        ⟨⟨st.conn, backoffIter st.backoff tries⟩,
         backoffSeq st.backoff tries, closedOfFrom outcomes 0 tries,
         some (connectFailMsg tries ((outcomes (tries - 1)).err))⟩) := by
  refine ⟨?_, ?_, ?_, ?_⟩
  · intro outcomes st
    rfl
  · intro outcomes st tries
    cases tries with
    | zero =>
      constructor
      · simp [Connection.Connect]
      · simp [Connection.Connect, backoffSeq]
    | succ t =>
      have hC : Connection.Connect outcomes st (t + 1) =
          Connection.connectAux outcomes (t + 1) (t + 1) 0 st [] [] none := by
        unfold Connection.Connect
        rw [if_neg (by omega)]
      obtain ⟨n, hn, hs⟩ := connectAux_sleeps (t + 1) outcomes (t + 1) 0 st [] [] none
      rw [hC, hs]
      simp only [List.nil_append]
      constructor
      · rw [backoffSeq_length]
        exact hn
      · rw [backoffSeq_length]
  · intro outcomes st tries m h hfail hok hm
    have hC : Connection.Connect outcomes st tries =
        Connection.connectAux outcomes tries tries 0 st [] [] none := by
      unfold Connection.Connect
      rw [if_neg (by omega)]
    rw [hC, connectAux_first_success m outcomes tries tries 0 st [] [] none h
      (by intro j hj; simpa using hfail j hj) (by simpa using hok) hm]
    simp
  · intro outcomes st tries hpos hfail
    have hC : Connection.Connect outcomes st tries =
        Connection.connectAux outcomes tries tries 0 st [] [] none := by
      unfold Connection.Connect
      rw [if_neg (by omega)]
    rw [hC, connectAux_all_fail tries outcomes tries 0 st [] [] none
      (by intro j hj; simpa using hfail j hj)]
    simp only [List.nil_append]
    rw [lastErrOf_pos outcomes tries 0 none hpos]
    simp

/-- Witness for the C7 theorem: one failed liveness probe, then a
successful second attempt out of three tries. -/
theorem connect_retry_contract_witness :
    Connection.Connect (fun k => if k = 0 then Attempt.pingFail 9 "dead" else Attempt.ok 42)
        ⟨none, ⟨0, 20⟩⟩ 3 =
      ⟨⟨some 42, (backoffIter (⟨0, 20⟩ : Backoff) (1 + 1)).success⟩,
       backoffSeq (⟨0, 20⟩ : Backoff) (1 + 1),
       closedOfFrom (fun k => if k = 0 then Attempt.pingFail 9 "dead" else Attempt.ok 42) 0 1,
       none⟩ :=
  connect_retry_contract.2.2.1
    (fun k => if k = 0 then Attempt.pingFail 9 "dead" else Attempt.ok 42)
    ⟨none, ⟨0, 20⟩⟩ 3 1 42
    (by
      intro j hj
      have hj0 : j = 0 := by omega
      rw [hj0]
      rfl)
    (by rfl) (by norm_num)

/-- `Add` on a recognized metric type always returns, preserving the
type. -/
theorem add_some_of_valid (s : Stats) (m : Metric) (ts : Int)
    (h : s.metricType = "gauge" ∨ s.metricType = "counter") :
    ∃ s2 e, s.Add m ts = some (s2, e) ∧ s2.metricType = s.metricType := by
  rcases h with h | h
  · exact ⟨_, _, add_gauge_eq s m ts h, rfl⟩
  · by_cases hf : s.firstVal = false
    · by_cases hle : s.prevVal ≤ m.number
      · exact ⟨_, _, add_counter_incr s m ts h hf hle, rfl⟩
      · exact ⟨_, _, add_counter_reset s m ts h hf (not_le.mp hle), rfl⟩
    · exact ⟨_, _, add_counter_first s m ts h (by simpa using hf), rfl⟩

/-- A successful lookup returns a `Stats` stored in the window. -/
theorem lookupStats_mem (cur : MetricsMap) (name : String) (s : Stats)
    (h : lookupStats cur name = some s) : ∃ p ∈ cur, p.2 = s := by
  induction cur with
  | nil => exact absurd h (by simp [lookupStats])
  | cons q rest ih =>
    obtain ⟨n, s0⟩ := q
    unfold lookupStats at h
    by_cases hn : n = name
    · rw [if_pos hn] at h
      injection h with h
      exact ⟨(n, s0), List.mem_cons_self _ _, h⟩
    · rw [if_neg hn] at h
      obtain ⟨p, hp, hps⟩ := ih h
      exact ⟨p, List.mem_cons_of_mem _ hp, hps⟩

/-- An entry of the updated window is the new binding or an old entry. -/
theorem updateStats_mem (cur : MetricsMap) (name : String) (s : Stats) :
    ∀ p ∈ updateStats cur name s, p.2 = s ∨ p ∈ cur := by
  induction cur with
  | nil =>
    intro p hp
    simp only [updateStats, List.mem_singleton] at hp
    left
    rw [hp]
  | cons q rest ih =>
    obtain ⟨n, s0⟩ := q
    intro p hp
    unfold updateStats at hp
    by_cases hn : n = name
    · rw [if_pos hn] at hp
      rcases List.mem_cons.mp hp with hp | hp
      · left; rw [hp]
      · right; exact List.mem_cons_of_mem _ hp
    · rw [if_neg hn] at hp
      rcases List.mem_cons.mp hp with hp | hp
      · right; rw [hp]; exact List.mem_cons_self _ _
      · rcases ih p hp with hps | hpc
        · left; exact hps
        · right; exact List.mem_cons_of_mem _ hpc

/-- Handling one valid metric in a valid window neither panics nor breaks
window validity, and agrees with the total spec-side step. -/
theorem addMetricToWindow_valid (cur : MetricsMap) (ts : Int) (m : Metric)
    (hm : ValidMetric m) (hw : ValidWindow cur) :
    addMetricToWindow cur ts m = some (addMetricTotal cur ts m) ∧
    ValidWindow (addMetricTotal cur ts m) := by
  have hstep : ∃ cur2, addMetricToWindow cur ts m = some cur2 ∧ ValidWindow cur2 := by
    unfold addMetricToWindow
    cases hl : lookupStats cur m.name with
    | some s =>
      have hsv : s.metricType = "gauge" ∨ s.metricType = "counter" := by
        obtain ⟨p, hp, hps⟩ := lookupStats_mem cur m.name s hl
        rw [← hps]
        exact hw p hp
      obtain ⟨s2, e, hadd, hs2⟩ := add_some_of_valid s m ts hsv
      dsimp only
      rw [hadd]
      refine ⟨updateStats cur m.name s2, rfl, ?_⟩
      intro p hp
      rcases updateStats_mem cur m.name s2 p hp with hps | hpc
      · rw [hps, hs2]; exact hsv
      · exact hw p hpc
    | none =>
      have hok : NewStats m.type = Except.ok (freshStats m.type) := by
        unfold NewStats
        rw [if_pos (by rcases hm with h | h <;> simp [MetricTypes, h])]
      dsimp only
      rw [hok]
      have hsv : (freshStats m.type).metricType = "gauge" ∨
          (freshStats m.type).metricType = "counter" := hm
      obtain ⟨s2, e, hadd, hs2⟩ := add_some_of_valid (freshStats m.type) m ts hsv
      simp only [Except.toOption]
      rw [hadd]
      refine ⟨updateStats cur m.name s2, rfl, ?_⟩
      intro p hp
      rcases updateStats_mem cur m.name s2 p hp with hps | hpc
      · rw [hps, hs2]; exact hsv
      · exact hw p hpc
  obtain ⟨cur2, hc, hv⟩ := hstep
  have ht : addMetricTotal cur ts m = cur2 := by
    unfold addMetricTotal
    rw [hc]
  rw [ht]
  exact ⟨hc, hv⟩

/-- Handling a whole valid Collection in a valid window: total, valid, and
equal to the spec-side fold. -/
theorem addMetricsToWindow_valid (ms : List Metric) :
    ∀ (cur : MetricsMap) (ts : Int), (∀ m ∈ ms, ValidMetric m) → ValidWindow cur →
    addMetricsToWindow cur ts ms = some (addMetricsTotal cur ts ms) ∧
    ValidWindow (addMetricsTotal cur ts ms) := by
  induction ms with
  | nil =>
    intro cur ts _ hw
    exact ⟨rfl, hw⟩
  | cons m rest ih =>
    intro cur ts hv hw
    have hm : ValidMetric m := hv m (List.mem_cons_self _ _)
    obtain ⟨h1, h2⟩ := addMetricToWindow_valid cur ts m hm hw
    obtain ⟨h3, h4⟩ := ih (addMetricTotal cur ts m) ts
      (by intro x hx; exact hv x (List.mem_cons_of_mem _ hx)) h2
    constructor
    · unfold addMetricsToWindow
      rw [h1]
      dsimp only
      rw [h3]
      simp [addMetricsTotal]
    · have : addMetricsTotal cur ts (m :: rest) =
          addMetricsTotal (addMetricTotal cur ts m) ts rest := by
        simp [addMetricsTotal]
      rw [this]
      exact h4

/-- With a window open at tick `t`, the run loop over valid events emits
exactly the spec-level window Reports, appended to what it already
emitted. -/
theorem runAux_spec_open (evs : List AggEvent) :
    ∀ (t : Int) (cur : MetricsMap) (reps : List Report),
    ValidEvents evs → ValidWindow cur →
    Aggregator.runAux ⟨some t, cur⟩ reps evs = some (reps ++ specFrom t cur evs) := by
  induction evs with
  | nil =>
    intro t cur reps _ _
    simp [Aggregator.runAux, specFrom]
  | cons e rest ih =>
    intro t cur reps hv hw
    have hvrest : ValidEvents rest := by
      intro x hx
      exact hv x (List.mem_cons_of_mem _ hx)
    cases e with
    | tick t2 =>
      unfold Aggregator.runAux
      dsimp only
      rw [ih t2 [] (reps ++ [Report.mk t (summarizeAll cur)]) hvrest (by intro p hp; simp at hp)]
      simp [specFrom]
    | coll c =>
      have hvc : ∀ m ∈ c.metrics, ValidMetric m := hv (AggEvent.coll c) (List.mem_cons_self _ _)
      obtain ⟨h1, h2⟩ := addMetricsToWindow_valid c.metrics cur c.startTs hvc hw
      unfold Aggregator.runAux
      dsimp only
      rw [h1]
      dsimp only
      rw [ih t (addMetricsTotal cur c.startTs c.metrics) reps hvrest h2]
      simp [specFrom]
    | stop =>
      simp [Aggregator.runAux, specFrom]

/-- Before the first tick, the run loop over valid events emits exactly the
spec-level windows: whatever it provisionally accumulated is discarded at
the first tick. -/
theorem runAux_spec_closed (evs : List AggEvent) :
    ∀ (cur : MetricsMap) (reps : List Report),
    ValidEvents evs → ValidWindow cur →
    Aggregator.runAux ⟨none, cur⟩ reps evs = some (reps ++ specWindows evs) := by
  induction evs with
  | nil =>
    intro cur reps _ _
    simp [Aggregator.runAux, specWindows]
  | cons e rest ih =>
    intro cur reps hv hw
    have hvrest : ValidEvents rest := by
      intro x hx
      exact hv x (List.mem_cons_of_mem _ hx)
    cases e with
    | tick t =>
      unfold Aggregator.runAux
      dsimp only
      rw [runAux_spec_open rest t [] reps hvrest (by intro p hp; simp at hp)]
      simp [specWindows]
    | coll c =>
      have hvc : ∀ m ∈ c.metrics, ValidMetric m := hv (AggEvent.coll c) (List.mem_cons_self _ _)
      obtain ⟨h1, h2⟩ := addMetricsToWindow_valid c.metrics cur c.startTs hvc hw
      unfold Aggregator.runAux
      dsimp only
      rw [h1]
      dsimp only
      rw [ih (addMetricsTotal cur c.startTs c.metrics) reps hvrest h2]
      simp [specWindows]
    | stop =>
      simp [Aggregator.runAux, specWindows]

/-- Everything after the first stop signal is ignored: the loop returns at
the stop, emitting nothing further. -/
theorem runAux_stop (pre : List AggEvent) :
    ∀ (st : AggState) (reps : List Report) (rest : List AggEvent),
    Aggregator.runAux st reps (pre ++ AggEvent.stop :: rest) =
      Aggregator.runAux st reps pre := by
  induction pre with
  | nil =>
    intro st reps rest
    rfl
  | cons e pre2 ih =>
    intro st reps rest
    cases e with
    | tick t =>
      rw [List.cons_append]
      unfold Aggregator.runAux
      cases st.startTs with
      | some t0 => dsimp only; rw [ih]
      | none => dsimp only; rw [ih]
    | coll c =>
      rw [List.cons_append]
      unfold Aggregator.runAux
      cases addMetricsToWindow st.cur c.startTs c.metrics with
      | none => rfl
      | some cur2 => dsimp only; rw [ih]
    | stop =>
      rfl

/-- C6: over any trace of valid events the Aggregator's run loop emits
exactly the spec-level tick-delimited window Reports — Collections before
the first tick are discarded, and each tick after the first emits exactly
one Report timestamped at the previous tick holding exactly the metrics of
the Collections received since it — and a stop signal truncates the run
without flushing the open window. -/
theorem aggregator_windows_refinement :
    (∀ evs : List AggEvent, ValidEvents evs →
      Aggregator.run evs = some (specWindows evs)) ∧
    (∀ (pre rest : List AggEvent),
      Aggregator.run (pre ++ AggEvent.stop :: rest) = Aggregator.run pre) := by
  constructor
  · intro evs hv
    unfold Aggregator.run
    rw [runAux_spec_closed evs [] [] hv (by intro p hp; simp at hp)]
    simp
  · intro pre rest
    unfold Aggregator.run
    exact runAux_stop pre ⟨none, []⟩ [] rest

/-- Witness for the C6 theorem at a concrete two-tick trace with one
counter Collection in the window. -/
theorem aggregator_windows_refinement_witness :
    Aggregator.run [AggEvent.tick 0,
        AggEvent.coll ⟨5, [⟨"x", "counter", 7⟩]⟩,
        AggEvent.tick 60] =
      some (specWindows [AggEvent.tick 0,
        AggEvent.coll ⟨5, [⟨"x", "counter", 7⟩]⟩,
        AggEvent.tick 60]) :=
  aggregator_windows_refinement.1
    [AggEvent.tick 0, AggEvent.coll ⟨5, [⟨"x", "counter", 7⟩]⟩, AggEvent.tick 60]
    (by
      intro e he
      rcases List.mem_cons.mp he with he | he
      · rw [he]; trivial
      rcases List.mem_cons.mp he with he | he
      · rw [he]
        intro m hm
        rcases List.mem_singleton.mp hm with hm
        rw [hm]
        right
        rfl
      rcases List.mem_singleton.mp he with he
      rw [he]
      trivial)

/-- C1 evaluated at its failing input: a counter metric observed once in
the window is not omitted from the emitted Report — the Report carries the
entry with an empty (`Cnt = 0`) summary, because `Aggregator.report` calls
`Summarize` on every accumulated `Stats` and never `Finalize`. -/
theorem aggregator_report_keeps_empty_summary :
    (Aggregator.run [AggEvent.tick 0,
        AggEvent.coll ⟨5, [⟨"x", "counter", 7⟩]⟩,
        AggEvent.tick 60]).map
      (fun reps => reps.map (fun r => (r.Ts, r.Metrics.map (fun p => (p.1, p.2.Cnt))))) =
      some [(0, [("x", 0)])] := by
  rfl
